import Mathlib

set_option autoImplicit false

namespace DungeonTracker

/-!
Shallow embedding of the diff-and-classify engine of `dungeon_tracker.py`
(class `DungeonPointsTracker`), together with the near-duplicate copy in
`.github/dungeon_tracker.py`.

Python dictionaries are modelled as association lists:
a `Snapshot` maps a player name to a non-negative total,
a `Catalog` (`self.dungeon_map`) maps an integer point value to the list of
dungeon names appended for it, in insertion order.
-/

/-- The dungeon map built by `_load_dungeon_map`: point value to the names
appended under it, keys in insertion order. -/
abbrev Catalog := List (Int × List String)

/-- A points snapshot: player name to total points (Python dict). -/
abbrev Snapshot := List (String × Nat)

/-- Models Python `d.get(player, 0)` on a snapshot dict. -/
def Snapshot.get (s : Snapshot) (p : String) : Nat :=
  match s.lookup p with
  | some v => v
  | none => 0

/-- The key set of a snapshot dict. -/
def Snapshot.keys (s : Snapshot) : List String := s.map Prod.fst

/-- Models Python `sep.join(xs)`. -/
def joinSep (sep : String) : List String → String
  | [] => ""
  | [x] => x
  | x :: xs => x ++ sep ++ joinSep sep xs

/-- Models Python `s.strip()`: drop whitespace from both ends. -/
def pyStrip (s : String) : String :=
  String.mk (((s.data.dropWhile Char.isWhitespace).reverse.dropWhile Char.isWhitespace).reverse)

/-- Digit-run tail of Python `int` parsing on a stripped string: after the
first digit, digits may continue, with a single underscore allowed between
two digits. `acc` is the value of the digits consumed so far. -/
def parseDigitsAux (acc : Nat) : List Char → Option Nat
  | [] => some acc
  | '_' :: c :: cs => if c.isDigit then parseDigitsAux (10 * acc + (c.toNat - 48)) cs else none
  | ['_'] => none
  | c :: cs => if c.isDigit then parseDigitsAux (10 * acc + (c.toNat - 48)) cs else none

/-- Models Python `int(s)` on an already-stripped string: an optional sign
followed by a digit run (underscores allowed between digits); `none` models
the `ValueError` branch. -/
def parsePyInt (s : String) : Option Int :=
  match s.data with
  | [] => none
  | '+' :: c :: cs =>
      if c.isDigit then (parseDigitsAux (c.toNat - 48) cs).map Int.ofNat else none
  | '-' :: c :: cs =>
      if c.isDigit then (parseDigitsAux (c.toNat - 48) cs).map (fun n => -(n : Int)) else none
  | c :: cs =>
      if c.isDigit then (parseDigitsAux (c.toNat - 48) cs).map Int.ofNat else none

/-- Models the body of the row loop of `_load_dungeon_map` once `points` has
parsed: `if points not in dungeon_map: dungeon_map[points] = []` followed by
`dungeon_map[points].append(dungeon_name)`. -/
def catAdd : Catalog → Int → String → Catalog
  | [], points, name => [(points, [name])]
  | (k, ns) :: rest, points, name =>
      if k = points then (k, ns ++ [name]) :: rest
      else (k, ns) :: catAdd rest points name

/-- One iteration of the row loop of `_load_dungeon_map`: strip the name and
the points string, skip the row when the points string is empty or fails to
parse as an integer, otherwise add the name under the parsed key. -/
def loadRow (m : Catalog) (row : String × String) : Catalog :=
  let dungeon_name := pyStrip row.1
  let points_str := pyStrip row.2
  if points_str.data.isEmpty then m
  else
    match parsePyInt points_str with
    | some points => catAdd m points dungeon_name
    | none => m

/-- Models `_load_dungeon_map` applied to the parsed CSV rows
`(row[Dung], row[Dung body (plast)])`. -/
def load_dungeon_map (rows : List (String × String)) : Catalog :=
  rows.foldl loadRow []

/-- Models `_get_dungeon_name` of `dungeon_tracker.py`: unknown point values
give the label embedding the number, a single mapped name is returned as is,
several mapped names are joined with the fixed delimiter. -/
def get_dungeon_name (dungeon_map : Catalog) (points : Int) : String :=
  match dungeon_map.lookup points with
  | none => "Neznámý dungeon (" ++ toString points ++ " bodů)"
  | some dungeons =>
      match dungeons with
      | [d] => d
      | _ => joinSep " / " dungeons

/-- One entry of the `diff` dict of `calculate_diff`: player id, previous
total, new total, signed change, classification label. -/
structure ChangeRecord where
  old : Nat
  new : Nat
  change : Int
  dungeon : String
deriving DecidableEq, Repr

/-- Models `set(old_data.keys()) | set(new_data.keys())` as the deduplicated
union of the two key lists. -/
def all_players (old_data new_data : Snapshot) : List String :=
  (Snapshot.keys old_data ++ Snapshot.keys new_data).dedup

/-- The body of the player loop of `calculate_diff`: `none` when the change
is zero, otherwise the record stored into `diff[player]`. -/
def diffEntry (dungeon_map : Catalog) (old_data new_data : Snapshot) (player : String) :
    Option (String × ChangeRecord) :=
  let old_points := Snapshot.get old_data player
  let new_points := Snapshot.get new_data player
  let change : Int := (new_points : Int) - (old_points : Int)
  if change ≠ 0 then
    some (player,
      { old := old_points, new := new_points, change := change,
        dungeon := if change > 0 then get_dungeon_name dungeon_map change else "Ztráta bodů" })
  else none

/-- Models `calculate_diff` of `dungeon_tracker.py`: `none` models the
`return None` on a falsy (empty) `old_data`, otherwise the `diff` dict as the
list of per-player records over the key union. -/
def calculate_diff (dungeon_map : Catalog) (old_data new_data : Snapshot) :
    Option (List (String × ChangeRecord)) :=
  if old_data.isEmpty then none
  else some ((all_players old_data new_data).filterMap (diffEntry dungeon_map old_data new_data))

/-- The spec's `DungeonLookup.classify`, as realised at the call site in
`calculate_diff`: a positive delta goes through `_get_dungeon_name`, any
other nonzero delta gets the fixed loss sentinel. -/
def classify (dungeon_map : Catalog) (delta : Int) : String :=
  if delta > 0 then get_dungeon_name dungeon_map delta else "Ztráta bodů"

/-- Models `_get_dungeon_name` of `.github/dungeon_tracker.py` (the
repository's second copy), embedded separately for the equivalence claim. -/
def github_get_dungeon_name (dungeon_map : Catalog) (points : Int) : String :=
  match dungeon_map.lookup points with
  | none => "Neznámý dungeon (" ++ toString points ++ " bodů)"
  | some dungeons =>
      match dungeons with
      | [d] => d
      | _ => joinSep " / " dungeons

/-- The body of the player loop of `calculate_diff` in
`.github/dungeon_tracker.py`, whose classification is the conditional
expression `self._get_dungeon_name(change) if change > 0 else "Ztráta bodů"`. -/
def github_diffEntry (dungeon_map : Catalog) (old_data new_data : Snapshot) (player : String) :
    Option (String × ChangeRecord) :=
  let old_points := Snapshot.get old_data player
  let new_points := Snapshot.get new_data player
  let change : Int := (new_points : Int) - (old_points : Int)
  if change ≠ 0 then
    some (player,
      { old := old_points, new := new_points, change := change,
        dungeon := if change > 0 then github_get_dungeon_name dungeon_map change
                   else "Ztráta bodů" })
  else none

/-- Models `calculate_diff` of `.github/dungeon_tracker.py`. -/
def github_calculate_diff (dungeon_map : Catalog) (old_data new_data : Snapshot) :
    Option (List (String × ChangeRecord)) :=
  if old_data.isEmpty then none
  else
    some ((all_players old_data new_data).filterMap
      (github_diffEntry dungeon_map old_data new_data))

/-- One stored history element of `update`: the dict
`{'timestamp': timestamp.isoformat(), 'data': new_data}`. -/
structure HistoryEntry where
  timestamp : String
  data : Snapshot
deriving DecidableEq, Repr

/-- Models the Python slice `l[-n:]`: the last `n` elements (all of them when
there are fewer). -/
def takeLast {α : Type} (n : Nat) (l : List α) : List α := l.drop (l.length - n)

/-- Models the history step of `update`: `self.history.append(entry)`
followed by `self.history = self.history[-30:]`. -/
def historyAppend {α : Type} (history : List α) (entry : α) : List α :=
  takeLast 30 (history ++ [entry])

/-! ## Helper lemmas -/

lemma lookup_mem {m : Catalog} {k : Int} {ns : List String}
    (h : m.lookup k = some ns) : (k, ns) ∈ m := by
  induction m with
  | nil => simp [List.lookup] at h
  | cons e rest ih =>
      obtain ⟨a, b⟩ := e
      rw [List.lookup] at h
      cases hb : (k == a) with
      | true =>
          rw [hb] at h
          simp only [Option.some.injEq] at h
          subst h
          have : k = a := by simpa using hb
          subst this
          exact List.mem_cons_self _ _
      | false =>
          rw [hb] at h
          exact List.mem_cons_of_mem _ (ih h)

lemma lookup_eq_none_of_not_mem_keys {s : Snapshot} {p : String}
    (h : p ∉ Snapshot.keys s) : s.lookup p = none := by
  induction s with
  | nil => rfl
  | cons e rest ih =>
      obtain ⟨a, b⟩ := e
      rw [show Snapshot.keys ((a, b) :: rest) = a :: Snapshot.keys rest from rfl,
        List.mem_cons] at h
      push_neg at h
      rw [List.lookup]
      have hb : (p == a) = false := by simpa using h.1
      rw [hb]
      exact ih h.2

lemma get_of_not_mem_keys {s : Snapshot} {p : String} (h : p ∉ Snapshot.keys s) :
    Snapshot.get s p = 0 := by
  simp [Snapshot.get, lookup_eq_none_of_not_mem_keys h]

lemma diffEntry_some {dm : Catalog} {o n : Snapshot} {q p : String} {r : ChangeRecord}
    (h : diffEntry dm o n q = some (p, r)) :
    q = p ∧ r.old = Snapshot.get o p ∧ r.new = Snapshot.get n p ∧
      r.change = (Snapshot.get n p : Int) - (Snapshot.get o p : Int) ∧
      r.change ≠ 0 ∧ r.dungeon = classify dm r.change := by
  simp only [diffEntry] at h
  split at h
  · rename_i hne
    simp only [Option.some.injEq, Prod.mk.injEq] at h
    obtain ⟨rfl, rfl⟩ := h
    exact ⟨rfl, rfl, rfl, rfl, hne, rfl⟩
  · exact absurd h (by simp)

lemma diffEntry_isSome {dm : Catalog} {o n : Snapshot} {p : String} :
    (diffEntry dm o n p).isSome = true ↔ Snapshot.get o p ≠ Snapshot.get n p := by
  simp only [diffEntry]
  split <;> rename_i hc <;> simp <;> omega

lemma mem_all_players_of_get_ne {o n : Snapshot} {p : String}
    (h : Snapshot.get o p ≠ Snapshot.get n p) : p ∈ all_players o n := by
  by_contra hmem
  simp only [all_players, List.mem_dedup, List.mem_append] at hmem
  push_neg at hmem
  rw [get_of_not_mem_keys hmem.1, get_of_not_mem_keys hmem.2] at h
  exact h rfl

lemma mem_diff_list {dm : Catalog} {o n : Snapshot} {p : String} {r : ChangeRecord}
    (hm : (p, r) ∈ (all_players o n).filterMap (diffEntry dm o n)) :
    diffEntry dm o n p = some (p, r) := by
  rw [List.mem_filterMap] at hm
  obtain ⟨q, _, hq⟩ := hm
  obtain ⟨rfl, -⟩ := diffEntry_some hq
  exact hq

lemma calculate_diff_eq_some {dm : Catalog} {o n : Snapshot}
    {d : List (String × ChangeRecord)} (h : calculate_diff dm o n = some d) :
    d = (all_players o n).filterMap (diffEntry dm o n) := by
  unfold calculate_diff at h
  split at h
  · exact absurd h (by simp)
  · exact (Option.some.injEq _ _ ▸ h).symm

lemma count_key_filterMap {β : Type} (f : String → Option (String × β))
    (hf : ∀ a x, f a = some x → x.1 = a) :
    ∀ l : List String, l.Nodup → ∀ p : String,
      ((l.filterMap f).filter (fun e => e.1 == p)).length
        = if p ∈ l ∧ (f p).isSome then 1 else 0 := by
  intro l
  induction l with
  | nil => intro _ p; simp
  | cons a t ih =>
      intro hnd p
      rw [List.nodup_cons] at hnd
      obtain ⟨ha, hnd⟩ := hnd
      rw [List.filterMap_cons]
      cases hfa : f a with
      | none =>
          rw [ih hnd p]
          by_cases hpa : p = a
          · subst hpa
            simp [hfa, ha]
          · simp [hpa]
      | some x =>
          have hx1 : x.1 = a := hf a x hfa
          rw [List.filter_cons]
          by_cases hpa : p = a
          · subst hpa
            have hxp : (x.1 == p) = true := by simp [hx1]
            simp only [hxp, if_true, List.length_cons, ih hnd p]
            simp [ha, hfa]
          · have hxp : (x.1 == p) = false := by simp [hx1]; exact fun e => hpa e.symm
            simp only [hxp, Bool.false_eq_true, if_false, ih hnd p]
            simp [hpa]

/-! ## Claims -/

/-- C3: for every catalog and every current snapshot, `calculate_diff`
applied to an empty previous snapshot returns `none` (the Python `None`
no-result), which is distinct from an empty change set `some []`. -/
theorem calculate_diff_empty_previous (dm : Catalog) (current : Snapshot) :
    calculate_diff dm [] current = none ∧
      calculate_diff dm [] current ≠ some [] := by
  refine ⟨rfl, ?_⟩
  simp [calculate_diff]

/-- Witness for C3 at a concrete current snapshot. -/
theorem calculate_diff_empty_previous_witness :
    calculate_diff [] [] [("B", 2)] = none ∧
      calculate_diff [] [] [("B", 2)] ≠ some [] :=
  calculate_diff_empty_previous [] [("B", 2)]

/-- C4: every record produced by `calculate_diff` with a negative change
carries the fixed loss sentinel label, whatever the catalog holds. -/
theorem negative_change_is_loss_sentinel (dm : Catalog) (old_data new_data : Snapshot)
    (d : List (String × ChangeRecord)) (p : String) (r : ChangeRecord)
    (h : calculate_diff dm old_data new_data = some d) (hm : (p, r) ∈ d)
    (hneg : r.change < 0) : r.dungeon = "Ztráta bodů" := by
  have hd0 := calculate_diff_eq_some h
  subst hd0
  obtain ⟨-, -, -, -, -, hd⟩ := diffEntry_some (mem_diff_list hm)
  rw [hd, classify, if_neg (by omega)]

/-- Witness for C4 at a concrete run: player A drops from 5 to 3 and the
record is labelled with the loss sentinel. -/
theorem negative_change_is_loss_sentinel_witness :
    ({ old := 5, new := 3, change := -2, dungeon := "Ztráta bodů" } : ChangeRecord).dungeon
      = "Ztráta bodů" :=
  negative_change_is_loss_sentinel [(1, ["X"])] [("A", 5)] [("A", 3)]
    [("A", { old := 5, new := 3, change := -2, dungeon := "Ztráta bodů" })] "A"
    { old := 5, new := 3, change := -2, dungeon := "Ztráta bodů" }
    (by decide) (by decide) (by decide)

/-- C5 counterexample: on the empty snapshot, `diff(S, S)` is the no-result
value `none`, not the empty change set `some []`, so the claim fails at
`S = empty`. -/
theorem diff_empty_self_is_no_result :
    calculate_diff [] ([] : Snapshot) ([] : Snapshot) = none ∧
      (none : Option (List (String × ChangeRecord))) ≠ some [] := by
  exact ⟨rfl, by simp⟩

/-- C5 amended: `diff(S, S)` yields the empty change set for every non-empty
snapshot `S`; for the empty snapshot it yields the no-result value instead. -/
theorem diff_self (dm : Catalog) (S : Snapshot) :
    calculate_diff dm S S = if S.isEmpty then none else some [] := by
  unfold calculate_diff
  split
  · rfl
  · congr 1
    rw [List.filterMap_eq_nil_iff]
    intro p _
    simp [diffEntry]

/-- Witness for C5 (amended) at a concrete non-empty snapshot. -/
theorem diff_self_witness :
    calculate_diff [] [("A", 1)] [("A", 1)]
      = if ([("A", 1)] : Snapshot).isEmpty then none else some [] :=
  diff_self [] [("A", 1)]

/-- C8: the diff-and-classify engines of `dungeon_tracker.py` and of
`.github/dungeon_tracker.py` agree on every catalog and every pair of
snapshots, and so do their classifiers. -/
theorem engines_extensionally_equal :
    (∀ (dm : Catalog) (old_data new_data : Snapshot),
        calculate_diff dm old_data new_data = github_calculate_diff dm old_data new_data)
    ∧ ∀ (dm : Catalog) (points : Int),
        get_dungeon_name dm points = github_get_dungeon_name dm points :=
  ⟨fun _ _ _ => rfl, fun _ _ => rfl⟩

/-- Witness for C8 at a concrete catalog and pair of snapshots. -/
theorem engines_extensionally_equal_witness :
    calculate_diff [(2, ["Crypt"])] [("A", 1)] [("A", 3)]
      = github_calculate_diff [(2, ["Crypt"])] [("A", 1)] [("A", 3)] :=
  engines_extensionally_equal.1 [(2, ["Crypt"])] [("A", 1)] [("A", 3)]

/-- C1: whenever `calculate_diff` produces a change set, it holds exactly one
record for each player whose old value (`previous.get(player, 0)`) differs
from the new value (`current.get(player, 0)`), and that record carries the
old total, the new total, the delta `new - old` and the classification
`classify(delta)`; a player with equal old and new values gets no record. -/
theorem calculate_diff_record_set (dm : Catalog) (old_data new_data : Snapshot)
    (d : List (String × ChangeRecord))
    (h : calculate_diff dm old_data new_data = some d) (p : String) :
    ((d.filter (fun e => e.1 == p)).length
      = if Snapshot.get old_data p ≠ Snapshot.get new_data p then 1 else 0)
    ∧ ∀ r : ChangeRecord, (p, r) ∈ d →
        r.old = Snapshot.get old_data p ∧ r.new = Snapshot.get new_data p ∧
        r.change = (Snapshot.get new_data p : Int) - (Snapshot.get old_data p : Int) ∧
        r.dungeon = classify dm r.change := by
  have hd0 := calculate_diff_eq_some h
  subst hd0
  constructor
  · have hf : ∀ (a : String) (x : String × ChangeRecord),
        diffEntry dm old_data new_data a = some x → x.1 = a := by
      rintro a ⟨p1, r1⟩ hx
      exact (diffEntry_some hx).1.symm
    rw [count_key_filterMap (diffEntry dm old_data new_data) hf
      (all_players old_data new_data) (List.nodup_dedup _) p]
    by_cases hne : Snapshot.get old_data p ≠ Snapshot.get new_data p
    · rw [if_pos hne, if_pos ⟨mem_all_players_of_get_ne hne, diffEntry_isSome.2 hne⟩]
    · rw [if_neg hne, if_neg]
      rintro ⟨-, hs⟩
      exact hne (diffEntry_isSome.1 hs)
  · intro r hr
    obtain ⟨-, h1, h2, h3, -, h4⟩ := diffEntry_some (mem_diff_list hr)
    exact ⟨h1, h2, h3, h4⟩

/-- Witness for C1 at a concrete run: player A rises from 1 to 2 and the
change set holds exactly one record keyed by A. -/
theorem calculate_diff_record_set_witness :
    ([("A", ({ old := 1, new := 2, change := 1,
               dungeon := "Neznámý dungeon (1 bodů)" } : ChangeRecord))].filter
          (fun e => e.1 == "A")).length
      = if Snapshot.get [("A", 1)] "A" ≠ Snapshot.get [("A", 2)] "A" then 1 else 0 :=
  (calculate_diff_record_set [] [("A", 1)] [("A", 2)]
    [("A", { old := 1, new := 2, change := 1, dungeon := "Neznámý dungeon (1 bodů)" })]
    (by decide) "A").1

/-- C2: for a positive delta, `_get_dungeon_name` returns the single mapped
name when the catalog holds exactly one name for it, the names joined in
catalog insertion order with the fixed delimiter when it holds several, and
the label embedding the numeric delta when the delta is absent. -/
theorem get_dungeon_name_cases (dm : Catalog) (delta : Int) (_hpos : 0 < delta) :
    (∀ name, dm.lookup delta = some [name] → get_dungeon_name dm delta = name)
    ∧ (∀ names, dm.lookup delta = some names → 1 < names.length →
        get_dungeon_name dm delta = joinSep " / " names)
    ∧ (dm.lookup delta = none →
        get_dungeon_name dm delta = "Neznámý dungeon (" ++ toString delta ++ " bodů)") := by
  refine ⟨fun name hl => ?_, fun names hl hlen => ?_, fun hl => ?_⟩
  · rw [get_dungeon_name, hl]
  · rw [get_dungeon_name, hl]
    match names, hlen with
    | a :: b :: t, _ => rfl
  · rw [get_dungeon_name, hl]

/-- Witness for C2: a catalog with a sole name at 2 points gives back that
name for a delta of 2. -/
theorem get_dungeon_name_cases_witness :
    get_dungeon_name [((2 : Int), ["Crypt"])] 2 = "Crypt" :=
  (get_dungeon_name_cases [((2 : Int), ["Crypt"])] 2 (by decide)).1 "Crypt" (by decide)

/-! ## Catalog construction lemmas (C6, C9) -/

lemma catAdd_keys {m : Catalog} {k p : Int} {name : String}
    (h : k ∈ (catAdd m p name).map Prod.fst) : k ∈ m.map Prod.fst ∨ k = p := by
  induction m with
  | nil => simpa [catAdd] using h
  | cons e rest ih =>
      obtain ⟨a, b⟩ := e
      rw [catAdd] at h
      by_cases hap : a = p
      · rw [if_pos hap] at h
        exact Or.inl (by simpa using h)
      · rw [if_neg hap] at h
        rcases List.mem_map.1 h with ⟨x, hx, hfst⟩
        rcases List.mem_cons.1 hx with hx | hx
        · subst hx; exact Or.inl (by simp [← hfst])
        · rcases ih (List.mem_map.2 ⟨x, hx, hfst⟩) with h1 | h1
          · exact Or.inl (by simp [List.mem_map] at h1 ⊢; tauto)
          · exact Or.inr h1

lemma loadRow_keys {m : Catalog} {row : String × String} {k : Int}
    (h : k ∈ (loadRow m row).map Prod.fst) :
    k ∈ m.map Prod.fst ∨
      ((pyStrip row.2).data ≠ [] ∧ parsePyInt (pyStrip row.2) = some k) := by
  rw [loadRow] at h
  split at h
  · exact Or.inl h
  · rename_i hne
    rw [List.isEmpty_iff] at hne
    split at h
    · rename_i points hp
      rcases catAdd_keys h with h1 | h1
      · exact Or.inl h1
      · exact Or.inr ⟨hne, h1 ▸ hp⟩
    · exact Or.inl h

lemma foldl_loadRow_keys (rows : List (String × String)) :
    ∀ (m : Catalog) (k : Int), k ∈ ((rows.foldl loadRow m).map Prod.fst) →
      k ∈ m.map Prod.fst ∨
        ∃ r ∈ rows, (pyStrip r.2).data ≠ [] ∧ parsePyInt (pyStrip r.2) = some k := by
  induction rows with
  | nil => intro m k h; exact Or.inl h
  | cons row rows ih =>
      intro m k h
      rw [List.foldl_cons] at h
      rcases ih (loadRow m row) k h with h1 | h1
      · rcases loadRow_keys h1 with h2 | h2
        · exact Or.inl h2
        · exact Or.inr ⟨row, List.mem_cons_self _ _, h2⟩
      · obtain ⟨r, hr, hr2⟩ := h1
        exact Or.inr ⟨r, List.mem_cons_of_mem _ hr, hr2⟩

/-- C6 counterexample: the row `("X", "-5")` parses and lands in the catalog
under the key `-5`, which is not a positive integer. -/
theorem load_dungeon_map_nonpositive_key :
    ¬ ∀ k ∈ (load_dungeon_map [("X", "-5")]).map Prod.fst, (0 : Int) < k := by
  decide

/-- C6 amended: every key of the catalog produced by `_load_dungeon_map` is
an integer successfully parsed from the stripped points string of some row
(it may be zero or negative, not necessarily positive); a row whose stripped
points string is empty or does not parse as an integer is skipped without
error, leaving the catalog unchanged. -/
theorem load_dungeon_map_keys_from_rows :
    (∀ (rows : List (String × String)) (k : Int),
        k ∈ (load_dungeon_map rows).map Prod.fst →
        ∃ r ∈ rows, (pyStrip r.2).data ≠ [] ∧ parsePyInt (pyStrip r.2) = some k)
    ∧ ∀ (m : Catalog) (name pstr : String),
        ((pyStrip pstr).data = [] ∨ parsePyInt (pyStrip pstr) = none) →
        loadRow m (name, pstr) = m := by
  constructor
  · intro rows k h
    rcases foldl_loadRow_keys rows [] k h with h1 | h1
    · simp at h1
    · exact h1
  · intro m name pstr hbad
    rw [loadRow]
    rcases hbad with hbad | hbad
    · rw [if_pos (by simpa [List.isEmpty_iff] using hbad)]
    · split
      · rfl
      · rw [hbad]

/-- Witness for C6 (amended): the key `-5` of the catalog built from the sole
row `("X", "-5")` is traced back to that row's parsed points string. -/
theorem load_dungeon_map_keys_from_rows_witness :
    ∃ r ∈ [("X", "-5")], (pyStrip r.2).data ≠ [] ∧
      parsePyInt (pyStrip r.2) = some (-5 : Int) :=
  load_dungeon_map_keys_from_rows.1 [("X", "-5")] (-5) (by decide)

lemma catAdd_mem {m : Catalog} {p : Int} {name : String} {k : Int} {ns : List String}
    (h : (k, ns) ∈ catAdd m p name) :
    (k, ns) ∈ m ∨ ∃ ns', ns = ns' ++ [name] := by
  induction m with
  | nil =>
      simp [catAdd] at h
      exact Or.inr ⟨[], by simp [h.2]⟩
  | cons e rest ih =>
      obtain ⟨a, b⟩ := e
      rw [catAdd] at h
      by_cases hap : a = p
      · rw [if_pos hap] at h
        rcases List.mem_cons.1 h with h1 | h1
        · exact Or.inr ⟨b, congrArg Prod.snd h1⟩
        · exact Or.inl (List.mem_cons_of_mem _ h1)
      · rw [if_neg hap] at h
        rcases List.mem_cons.1 h with h1 | h1
        · exact Or.inl (h1 ▸ List.mem_cons_self _ _)
        · rcases ih h1 with h2 | h2
          · exact Or.inl (List.mem_cons_of_mem _ h2)
          · exact Or.inr h2

lemma foldl_loadRow_values (rows : List (String × String)) :
    ∀ m : Catalog, (∀ k ns, (k, ns) ∈ m → ns ≠ []) →
      ∀ k ns, (k, ns) ∈ rows.foldl loadRow m → ns ≠ [] := by
  induction rows with
  | nil => intro m hm k ns h; exact hm k ns h
  | cons row rows ih =>
      intro m hm k ns h
      rw [List.foldl_cons] at h
      refine ih (loadRow m row) ?_ k ns h
      intro k' ns' h'
      rw [loadRow] at h'
      split at h'
      · exact hm k' ns' h'
      · split at h'
        · rcases catAdd_mem h' with h2 | h2
          · exact hm k' ns' h2
          · obtain ⟨ns'', rfl⟩ := h2
            simp
        · exact hm k' ns' h'

/-- C9 counterexample: the repeated row `("X", "5")` makes the name `X`
appear twice under the key `5`, so the mapped names are not pairwise
distinct. -/
theorem load_dungeon_map_duplicate_names :
    ¬ ∀ (k : Int) (ns : List String),
        (k, ns) ∈ load_dungeon_map [("X", "5"), ("X", "5")] → ns.Nodup := by
  intro hall
  exact absurd (hall 5 ["X", "X"] (by decide)) (by decide)

/-- C9 amended: the catalog produced by `_load_dungeon_map` maps each of its
keys to a non-empty list of dungeon names in insertion order; a row repeated
in the source makes the same name appear again under that point value
(duplicates are kept, not collapsed). -/
theorem load_dungeon_map_values_nonempty (rows : List (String × String))
    (k : Int) (ns : List String) (h : (k, ns) ∈ load_dungeon_map rows) : ns ≠ [] :=
  foldl_loadRow_values rows [] (by simp) k ns h

/-- Witness for C9 (amended): the value stored under key 5 for the sole row
`("X", "5")` is the non-empty list `["X"]`. -/
theorem load_dungeon_map_values_nonempty_witness : (["X"] : List String) ≠ [] :=
  load_dungeon_map_values_nonempty [("X", "5")] 5 ["X"] (by decide)

/-! ## History lemmas (C7) -/

lemma length_takeLast {α : Type} (n : Nat) (l : List α) : (takeLast n l).length ≤ n := by
  simp only [takeLast, List.length_drop]
  omega

lemma takeLast_of_length_le {α : Type} {n : Nat} {l : List α} (h : l.length ≤ n) :
    takeLast n l = l := by
  simp only [takeLast, show l.length - n = 0 from by omega, List.drop_zero]

lemma takeLast_takeLast_append {α : Type} (n : Nat) (xs ys : List α) :
    takeLast n (takeLast n xs ++ ys) = takeLast n (xs ++ ys) := by
  simp only [takeLast, List.drop_append_eq_append_drop, List.drop_drop,
    List.length_append, List.length_drop]
  congr 1
  · congr 1
    omega
  · congr 1
    omega

lemma foldl_historyAppend {α : Type} (es : List α) :
    ∀ acc : List α, acc.length ≤ 30 →
      es.foldl historyAppend acc = takeLast 30 (acc ++ es) := by
  induction es with
  | nil =>
      intro acc hacc
      rw [List.foldl_nil, List.append_nil, takeLast_of_length_le hacc]
  | cons e es ih =>
      intro acc hacc
      rw [List.foldl_cons, ih (historyAppend acc e) (length_takeLast 30 _),
        historyAppend, takeLast_takeLast_append, List.append_assoc,
        List.singleton_append]

/-- C7: one append-and-truncate step keeps the stored history at 30 entries
or fewer, and 31 append operations starting from the empty history leave
exactly 30 entries: the 30 most recently appended ones in append order. -/
theorem history_bound_after_appends :
    (∀ (h : List HistoryEntry) (e : HistoryEntry), (historyAppend h e).length ≤ 30)
    ∧ ∀ es : List HistoryEntry, es.length = 31 →
        es.foldl historyAppend [] = es.drop 1 ∧ (es.foldl historyAppend []).length = 30 := by
  constructor
  · intro h e
    exact length_takeLast 30 _
  · intro es hlen
    have h1 : es.foldl historyAppend [] = es.drop 1 := by
      rw [foldl_historyAppend es [] (by simp), List.nil_append, takeLast, hlen]
    exact ⟨h1, by rw [h1, List.length_drop, hlen]⟩

/-- Witness for C7: 31 identical appends starting from the empty history
store the last 30 entries. -/
theorem history_bound_after_appends_witness :
    List.foldl historyAppend []
        (List.replicate 31 ({ timestamp := "t", data := [] } : HistoryEntry))
      = (List.replicate 31 ({ timestamp := "t", data := [] } : HistoryEntry)).drop 1 :=
  (history_bound_after_appends.2
    (List.replicate 31 { timestamp := "t", data := [] }) (by simp)).1

/-! ## Sentinel lemmas (C10) -/

lemma unknown_label_ne_sentinel (t : String) :
    "Neznámý dungeon (" ++ t ++ " bodů)" ≠ "Ztráta bodů" := by
  intro heq
  have hlen := congrArg String.length heq
  rw [String.length_append, String.length_append] at hlen
  have h1 : ("Neznámý dungeon (" : String).length = 17 := by decide
  have h2 : (" bodů)" : String).length = 6 := by decide
  have h3 : ("Ztráta bodů" : String).length = 11 := by decide
  omega

lemma joinSep_two_ne_sentinel (a b : String) (t : List String) :
    joinSep " / " (a :: b :: t) ≠ "Ztráta bodů" := by
  intro heq
  have hmem : '/' ∈ (joinSep " / " (a :: b :: t)).data := by
    show '/' ∈ (a ++ " / " ++ joinSep " / " (b :: t)).data
    rw [String.data_append, String.data_append]
    exact List.mem_append.2 (Or.inl (List.mem_append.2 (Or.inr (by decide))))
  rw [heq] at hmem
  exact absurd hmem (by decide)

lemma get_dungeon_name_ne_sentinel {dm : Catalog}
    (hcat : ∀ e ∈ dm, ∀ nm ∈ e.2, nm ≠ "Ztráta bodů") (points : Int) :
    get_dungeon_name dm points ≠ "Ztráta bodů" := by
  rw [get_dungeon_name]
  cases hl : dm.lookup points with
  | none => exact unknown_label_ne_sentinel _
  | some ds =>
      rcases ds with - | ⟨a, - | ⟨b, t⟩⟩
      · exact (by decide : ("" : String) ≠ "Ztráta bodů")
      · exact hcat (points, [a]) (lookup_mem hl) a (by simp)
      · exact joinSep_two_ne_sentinel a b t

/-- C10: when no dungeon name of the catalog equals the loss sentinel
string, a record produced by `calculate_diff` carries the sentinel as its
classification exactly when its change is negative, so the label alone
determines the sign of the change. -/
theorem sentinel_iff_negative (dm : Catalog) (old_data new_data : Snapshot)
    (d : List (String × ChangeRecord)) (p : String) (r : ChangeRecord)
    (hcat : ∀ e ∈ dm, ∀ nm ∈ e.2, nm ≠ "Ztráta bodů")
    (h : calculate_diff dm old_data new_data = some d) (hm : (p, r) ∈ d) :
    r.dungeon = "Ztráta bodů" ↔ r.change < 0 := by
  have hd0 := calculate_diff_eq_some h
  subst hd0
  obtain ⟨-, -, -, -, hne, hd⟩ := diffEntry_some (mem_diff_list hm)
  rw [hd, classify]
  by_cases hpos : r.change > 0
  · rw [if_pos hpos]
    exact ⟨fun hs => absurd hs (get_dungeon_name_ne_sentinel hcat _),
      fun hneg => absurd hpos (by omega)⟩
  · rw [if_neg hpos]
    exact ⟨fun _ => by omega, fun _ => rfl⟩

/-- Witness for C10 at a concrete run: with a sentinel-free catalog, player
A's drop from 5 to 3 is labelled with the sentinel and indeed negative. -/
theorem sentinel_iff_negative_witness :
    ({ old := 5, new := 3, change := -2, dungeon := "Ztráta bodů" } : ChangeRecord).dungeon
        = "Ztráta bodů"
      ↔ ({ old := 5, new := 3, change := -2,
           dungeon := "Ztráta bodů" } : ChangeRecord).change < 0 :=
  sentinel_iff_negative [(2, ["Crypt"])] [("A", 5)] [("A", 3)]
    [("A", { old := 5, new := 3, change := -2, dungeon := "Ztráta bodů" })] "A"
    { old := 5, new := 3, change := -2, dungeon := "Ztráta bodů" }
    (by decide) (by decide) (by decide)

end DungeonTracker
